import Mathlib

/-!
Verification development for the go-healthcheck library.

The definitions below are a shallow embedding of the Go sources:
- `pkg/checks/checks.go` : the `Status` string type, its three constants, and
  the `Result` record,
- `pkg/health.go`        : the `HealthCheck` registry, the `Response` record,
  the concurrent `Execute` method and the HTTP `Handler`,
- `checks/redischeck/check.go` and `checks/diskcheck/check.go` : the two probe
  implementations referred to by the properties proved at the end.

Concurrency is embedded explicitly: `Execute` fans out one goroutine per
registered check, each sending `(name, Run(ctx))` on a buffered channel, and
then drains the channel `len(h.Checks)` times.  The drain order is the channel
arrival order, which is some permutation of the per-check messages.  We model
it by a parameter `arrival : List (String × List Result)` together with the
hypothesis `arrival.Perm (h.checks.map fun c => (c.name, c.run))` in every
theorem: the sent messages are exactly the registered checks' names paired
with the outcome lists their `Run` calls return, received in an arbitrary
order.
-/

set_option maxHeartbeats 1000000

namespace Healthcheck

/-- Go: `type Status string` (pkg/checks/checks.go).  `Status` is a plain
string type; the three constants below are the documented values, but — as in
Go — every string inhabits the type. -/
abbrev Status := String

/-- Go constant `StatusPass Status = "pass"`. -/
def StatusPass : Status := "pass"

/-- Go constant `StatusFail Status = "fail"`. -/
def StatusFail : Status := "fail"

/-- Go constant `StatusWarn Status = "warn"`. -/
def StatusWarn : Status := "warn"

/-- Values a probe of this repository stores in the `any`-typed field
`Result.ObservedValue`: nothing (Go zero value `nil`), an `int64`
(request/ping duration in milliseconds), or a `float64` (disk-usage
percentage, embedded as a rational). -/
inductive ObservedValue where
  | none : ObservedValue
  | int (n : Int) : ObservedValue
  | float (q : ℚ) : ObservedValue
deriving DecidableEq, Repr

/-- Go struct `checks.Result` (pkg/checks/checks.go).  The `time.Time` field
is embedded as a `Nat` timestamp. -/
structure Result where
  status : Status
  output : String
  time : Nat
  observedValue : ObservedValue
  observedUnit : String
  componentID : String
  componentType : String
deriving DecidableEq, Repr

/-- One registered check as observed by a single `Execute` call: `name` is
what `GetName()` returns and `run` is the `[]checks.Result` slice its
`Run(ctx)` call returns during that execution.  (The `checks.Check` interface
is polymorphic; for the aggregation theorems only these two observations
matter, and the theorems quantify over them.) -/
structure Check where
  name : String
  run : List Result
deriving DecidableEq, Repr

/-- Go struct `HealthCheck` (pkg/health.go). -/
structure HealthCheck where
  serviceID : String
  description : String
  version : String
  releaseID : String
  checks : List Check
deriving DecidableEq, Repr

/-- Go struct `Response` (pkg/health.go).  The Go field
`Checks map[string][]checks.Result` is embedded as an association list with
(by construction) unique keys; `lookupRes` below models the map read `m[k]`. -/
structure Response where
  serviceID : String
  description : String
  version : String
  releaseID : String
  output : String
  status : Status
  checks : List (String × List Result)
deriving DecidableEq, Repr

/-- Go map read `m[k]` on the embedded `map[string][]checks.Result`:
`some vs` when the key is present, `none` when absent. -/
def lookupRes : List (String × List Result) → String → Option (List Result)
  | [], _ => Option.none
  | (k', vs) :: rest, k => if k' = k then some vs else lookupRes rest k

/-- Go statement `checksResults[cr.name] = append(checksResults[cr.name], cr.result...)`
(pkg/health.go line 137): reading a missing key yields `nil`, appending to it
yields `vs`, and the store creates the entry — so a missing key is always
inserted, even with an empty `vs`. -/
def upsertAppend : List (String × List Result) → String → List Result → List (String × List Result)
  | [], k, vs => [(k, vs)]
  | (k', vs') :: rest, k, vs =>
    if k' = k then (k', vs' ++ vs) :: rest else (k', vs') :: upsertAppend rest k vs

/-- Body of the inner loop of `Execute` (pkg/health.go lines 139-145):

    if result.Status == checks.StatusFail {
        status = checks.StatusFail
    } else if result.Status == checks.StatusWarn && status != checks.StatusFail {
        status = checks.StatusWarn
    } -/
def foldStatus (status : Status) (r : Result) : Status :=
  if r.status = StatusFail then StatusFail
  else if r.status = StatusWarn ∧ status ≠ StatusFail then StatusWarn
  else status

/-- One iteration of the collection loop of `Execute` (pkg/health.go lines
135-146): receive `cr` from the channel, append its results under its name,
and fold its results into the running status. -/
def collectStep (acc : List (String × List Result) × Status) (cr : String × List Result) :
    List (String × List Result) × Status :=
  (upsertAppend acc.1 cr.1 cr.2, cr.2.foldl foldStatus acc.2)

/-- Go method `(h *HealthCheck) Execute(ctx)` (pkg/health.go lines 113-158).
`arrival` is the channel arrival order of the goroutines' messages (see the
module comment); the loop starts from the empty map and `StatusPass` and
folds `collectStep` over the received messages, then builds the `Response`
from the receiver's metadata fields (`Output` keeps its zero value `""`). -/
def Execute (h : HealthCheck) (arrival : List (String × List Result)) : Response :=
  let acc := arrival.foldl collectStep ([], StatusPass)
  { serviceID := h.serviceID
    description := h.description
    version := h.version
    releaseID := h.releaseID
    output := ""
    status := acc.2
    checks := acc.1 }

/-- Results filed under key `k` by the collection loop, in arrival order:
the concatenation of the result slices of every message whose name is `k`. -/
def valuesFor (k : String) (arrival : List (String × List Result)) : List Result :=
  ((arrival.filter fun cr => cr.1 == k).map Prod.snd).flatten

/-- Keys of the embedded `checks` map, in insertion order. -/
def keysOf (m : List (String × List Result)) : List String :=
  m.map Prod.fst

/-! Characterization of the status fold. -/

lemma foldStatus_of_fail {r : Result} (h : r.status = StatusFail) (s : Status) :
    foldStatus s r = StatusFail := by
  simp [foldStatus, h]

lemma foldl_foldStatus_char (rs : List Result) (s : Status) :
    rs.foldl foldStatus s =
      if rs.any (fun r => r.status == StatusFail) then StatusFail
      else if s = StatusFail then StatusFail
      else if rs.any (fun r => r.status == StatusWarn) then StatusWarn
      else s := by
  induction rs generalizing s with
  | nil =>
    by_cases hs : s = StatusFail <;> simp [hs]
  | cons r t ih =>
    rw [List.foldl_cons, ih (foldStatus s r), List.any_cons, List.any_cons]
    by_cases hf : r.status = StatusFail
    · simp [foldStatus, hf]
    · by_cases hw : r.status = StatusWarn
      · by_cases hs : s = StatusFail
        · simp [foldStatus, hf, hw, hs]
        · have hwf : StatusWarn ≠ StatusFail := by decide
          simp [foldStatus, hf, hw, hs, hwf]
      · simp [foldStatus, hf, hw]

/-! Decomposition of the collection fold into its two components. -/

lemma foldl_collectStep_snd (arrival : List (String × List Result))
    (m : List (String × List Result)) (s : Status) :
    (arrival.foldl collectStep (m, s)).2 =
      ((arrival.map Prod.snd).flatten).foldl foldStatus s := by
  induction arrival generalizing m s with
  | nil => rfl
  | cons cr t ih =>
    rw [List.foldl_cons, List.map_cons, List.flatten_cons, List.foldl_append]
    exact ih _ _

lemma foldl_collectStep_fst (arrival : List (String × List Result))
    (m : List (String × List Result)) (s : Status) :
    (arrival.foldl collectStep (m, s)).1 =
      arrival.foldl (fun mm cr => upsertAppend mm cr.1 cr.2) m := by
  induction arrival generalizing m s with
  | nil => rfl
  | cons cr t ih =>
    rw [List.foldl_cons, List.foldl_cons]
    exact ih _ _

/-! Lookup lemmas for the embedded map. -/

lemma lookupRes_upsertAppend_self (m : List (String × List Result)) (k : String)
    (vs : List Result) :
    lookupRes (upsertAppend m k vs) k = some ((lookupRes m k).getD [] ++ vs) := by
  induction m with
  | nil => simp [upsertAppend, lookupRes]
  | cons p rest ih =>
    obtain ⟨k', vs'⟩ := p
    by_cases h : k' = k
    · simp [upsertAppend, lookupRes, h]
    · simp [upsertAppend, lookupRes, h, ih]

lemma lookupRes_upsertAppend_ne (m : List (String × List Result)) {k j : String}
    (hne : k ≠ j) (vs : List Result) :
    lookupRes (upsertAppend m k vs) j = lookupRes m j := by
  induction m with
  | nil => simp [upsertAppend, lookupRes, hne]
  | cons p rest ih =>
    obtain ⟨k', vs'⟩ := p
    by_cases h : k' = k
    · subst h; simp [upsertAppend, lookupRes, hne]
    · by_cases h2 : k' = j <;> simp [upsertAppend, lookupRes, h, h2, ih, Ne.symm hne]

lemma valuesFor_nil_of_not_any {k : String} {arrival : List (String × List Result)}
    (h : arrival.any (fun cr => cr.1 == k) = false) : valuesFor k arrival = [] := by
  unfold valuesFor
  rw [List.filter_eq_nil_iff.mpr]
  · rfl
  · intro a ha
    exact (List.any_eq_false.mp h) a ha

lemma lookupRes_foldl_upsert (arrival : List (String × List Result))
    (m : List (String × List Result)) (k : String) :
    lookupRes (arrival.foldl (fun mm cr => upsertAppend mm cr.1 cr.2) m) k =
      if arrival.any (fun cr => cr.1 == k)
      then some ((lookupRes m k).getD [] ++ valuesFor k arrival)
      else lookupRes m k := by
  induction arrival generalizing m with
  | nil => simp
  | cons cr t ih =>
    rw [List.foldl_cons, ih]
    by_cases h : cr.1 = k
    · have hval : valuesFor k (cr :: t) = cr.2 ++ valuesFor k t := by
        simp [valuesFor, List.filter_cons, h]
      by_cases ht : t.any (fun cr => cr.1 == k)
      · simp only [ht, if_true, List.any_cons, h, beq_self_eq_true, Bool.true_or, if_true,
          lookupRes_upsertAppend_self, hval, Option.getD_some]
        simp [List.append_assoc]
      · simp only [ht, if_false, List.any_cons, h, beq_self_eq_true, Bool.true_or, if_true,
          lookupRes_upsertAppend_self, hval]
        rw [valuesFor_nil_of_not_any (Bool.eq_false_iff.mpr ht)]
        simp
    · have hval : valuesFor k (cr :: t) = valuesFor k t := by
        simp [valuesFor, List.filter_cons, h]
      rw [lookupRes_upsertAppend_ne m h]
      have hany : ((cr :: t).any fun cr => cr.1 == k) = (t.any fun cr => cr.1 == k) := by
        simp [List.any_cons, h]
      rw [hval, hany]

lemma keysOf_upsertAppend (m : List (String × List Result)) (k : String) (vs : List Result) :
    keysOf (upsertAppend m k vs) =
      if k ∈ keysOf m then keysOf m else keysOf m ++ [k] := by
  simp only [keysOf]
  induction m with
  | nil => simp [upsertAppend]
  | cons p rest ih =>
    obtain ⟨k', vs'⟩ := p
    by_cases h : k' = k
    · subst h; simp [upsertAppend]
    · have hne : k ≠ k' := fun hh => h hh.symm
      by_cases hm : k ∈ List.map Prod.fst rest
      · simp [upsertAppend, h, ih, hm, hne]
      · simp [upsertAppend, h, ih, hm, hne]

lemma nodup_keysOf_upsertAppend {m : List (String × List Result)} (hnd : (keysOf m).Nodup)
    (k : String) (vs : List Result) : (keysOf (upsertAppend m k vs)).Nodup := by
  rw [keysOf_upsertAppend]
  by_cases h : k ∈ keysOf m
  · simpa [h] using hnd
  · simp only [h, if_false]
    exact hnd.append (List.nodup_singleton k) (List.disjoint_singleton.mpr h)

lemma nodup_keysOf_foldl_upsert (arrival : List (String × List Result))
    (m : List (String × List Result)) (hnd : (keysOf m).Nodup) :
    (keysOf (arrival.foldl (fun mm cr => upsertAppend mm cr.1 cr.2) m)).Nodup := by
  induction arrival generalizing m with
  | nil => exact hnd
  | cons cr t ih =>
    rw [List.foldl_cons]
    exact ih _ (nodup_keysOf_upsertAppend hnd cr.1 cr.2)

lemma lookupRes_isSome_iff (m : List (String × List Result)) (k : String) :
    (lookupRes m k).isSome = true ↔ k ∈ keysOf m := by
  induction m with
  | nil => simp [lookupRes, keysOf]
  | cons p rest ih =>
    obtain ⟨k', vs'⟩ := p
    by_cases h : k' = k
    · simp [lookupRes, keysOf, h]
    · simp only [lookupRes, if_neg h, keysOf, List.map_cons, List.mem_cons]
      simp only [keysOf] at ih
      rw [ih]
      exact ⟨Or.inr, fun hc => hc.elim (fun he => absurd he.symm h) id⟩

/-! Transfer lemmas between the arrival order and the registered check list. -/

lemma perm_any {α : Type} {l₁ l₂ : List α} (hp : l₁.Perm l₂) (p : α → Bool) :
    l₁.any p = l₂.any p := by
  cases h2 : l₂.any p
  · rw [List.any_eq_false] at h2 ⊢
    intro x hx
    exact h2 x (hp.mem_iff.mp hx)
  · rw [List.any_eq_true] at h2 ⊢
    obtain ⟨x, hx, hpx⟩ := h2
    exact ⟨x, hp.mem_iff.mpr hx, hpx⟩

lemma flatten_snd_any (arrival : List (String × List Result)) (p : Result → Bool) :
    ((arrival.map Prod.snd).flatten).any p = arrival.any fun cr => cr.2.any p := by
  induction arrival with
  | nil => rfl
  | cons cr t ih => simp [List.any_cons, ih]

lemma any_snd_map_pairs (cs : List Check) (p : Result → Bool) :
    ((cs.map fun c => (c.name, c.run)).any fun cr => cr.2.any p)
      = cs.any fun c => c.run.any p := by
  induction cs with
  | nil => rfl
  | cons c t ih => simp [List.any_cons, ih]

lemma any_fst_map_pairs (cs : List Check) (n : String) :
    ((cs.map fun c => (c.name, c.run)).any fun cr => cr.1 == n)
      = cs.any fun c => c.name == n := by
  induction cs with
  | nil => rfl
  | cons c t ih => simp [List.any_cons, ih]

lemma any_name_iff (cs : List Check) (n : String) :
    (cs.any fun c => c.name == n) = true ↔ n ∈ cs.map Check.name := by
  rw [List.any_eq_true]
  constructor
  · rintro ⟨c, hc, hb⟩
    exact List.mem_map.mpr ⟨c, hc, beq_iff_eq.mp hb⟩
  · intro hn
    obtain ⟨c, hc, he⟩ := List.mem_map.mp hn
    exact ⟨c, hc, beq_iff_eq.mpr he⟩

/-! Characterization of the two components of the `Response` built by `Execute`. -/

lemma execute_status_char (h : HealthCheck) (arrival : List (String × List Result))
    (hp : arrival.Perm (h.checks.map fun c => (c.name, c.run))) :
    (Execute h arrival).status =
      if h.checks.any (fun c => c.run.any fun r => r.status == StatusFail) then StatusFail
      else if h.checks.any (fun c => c.run.any fun r => r.status == StatusWarn) then StatusWarn
      else StatusPass := by
  have h1 : (Execute h arrival).status
      = ((arrival.map Prod.snd).flatten).foldl foldStatus StatusPass := by
    simp [Execute, foldl_collectStep_snd]
  have htrans : ∀ s : Status,
      ((arrival.map Prod.snd).flatten).any (fun r => r.status == s)
        = h.checks.any fun c => c.run.any fun r => r.status == s := by
    intro s
    rw [flatten_snd_any, perm_any hp, any_snd_map_pairs]
  rw [h1, foldl_foldStatus_char, htrans, htrans,
    if_neg (by decide : ¬(StatusPass = StatusFail))]

lemma execute_checks_lookup (h : HealthCheck) (arrival : List (String × List Result))
    (k : String) :
    lookupRes (Execute h arrival).checks k =
      if arrival.any (fun cr => cr.1 == k) then some (valuesFor k arrival)
      else Option.none := by
  have h1 : (Execute h arrival).checks
      = arrival.foldl (fun mm cr => upsertAppend mm cr.1 cr.2) [] := by
    simp [Execute, foldl_collectStep_fst]
  rw [h1, lookupRes_foldl_upsert]
  simp [lookupRes]

/-! Concrete fixtures for the witness theorems. -/

/-- Result record with the given status and output and zero values elsewhere. -/
def mkResult (s : Status) (out : String) : Result :=
  { status := s, output := out, time := 0, observedValue := ObservedValue.none,
    observedUnit := "", componentID := "", componentType := "" }

/-- Sample registry: a passing http probe and a failing db probe (scenario A of
the specification). -/
def sampleHC : HealthCheck :=
  { serviceID := "svc", description := "demo", version := "1.0.0", releaseID := "r1",
    checks := [ { name := "http-check", run := [mkResult StatusPass ""] },
                { name := "db-check", run := [mkResult StatusFail "connection refused"] } ] }

/-- Channel arrival order for `sampleHC` with the db probe finishing first. -/
def sampleArrival : List (String × List Result) :=
  [("db-check", [mkResult StatusFail "connection refused"]),
   ("http-check", [mkResult StatusPass ""])]

/-! Claim theorems. -/

/-- C1: for every registered list of probes and for whatever outcome lists
their `Run` calls return (received in any channel arrival order), the status
of the `Response` returned by `HealthCheck.Execute` is `StatusFail` if at
least one outcome across all probes has status `fail`; otherwise `StatusWarn`
if at least one outcome has status `warn`; otherwise `StatusPass` — the
maximum of all outcome statuses under `Fail > Warn > Pass`, with `Pass` as the
value for the empty collection. -/
theorem execute_status_priority_reduction (h : HealthCheck)
    (arrival : List (String × List Result))
    (hp : arrival.Perm (h.checks.map fun c => (c.name, c.run))) :
    (Execute h arrival).status =
      if h.checks.any (fun c => c.run.any fun r => r.status == StatusFail) then StatusFail
      else if h.checks.any (fun c => c.run.any fun r => r.status == StatusWarn) then StatusWarn
      else StatusPass :=
  execute_status_char h arrival hp

/-- C1 witness: the reduction theorem instantiated on the concrete scenario-A
fixture (one passing probe, one failing probe, fail-first arrival order). -/
theorem execute_status_priority_reduction_witness :
    (Execute sampleHC sampleArrival).status =
      if sampleHC.checks.any (fun c => c.run.any fun r => r.status == StatusFail) then StatusFail
      else if sampleHC.checks.any (fun c => c.run.any fun r => r.status == StatusWarn) then StatusWarn
      else StatusPass :=
  execute_status_priority_reduction sampleHC sampleArrival (by decide)

/-- C2: when a `HealthCheck` has zero registered probes, `Execute` returns a
`Response` with status `StatusPass` and an empty checks mapping. -/
theorem execute_zero_probes_identity (h : HealthCheck)
    (arrival : List (String × List Result))
    (hzero : h.checks = [])
    (hp : arrival.Perm (h.checks.map fun c => (c.name, c.run))) :
    (Execute h arrival).status = StatusPass ∧ (Execute h arrival).checks = [] := by
  rw [hzero] at hp
  simp only [List.map_nil, List.perm_nil] at hp
  subst hp
  exact ⟨rfl, rfl⟩

/-- C2 witness: the identity theorem instantiated on a registry with no
checks. -/
theorem execute_zero_probes_identity_witness :
    (Execute { serviceID := "svc", description := "", version := "", releaseID := "",
               checks := [] } []).status = StatusPass ∧
    (Execute { serviceID := "svc", description := "", version := "", releaseID := "",
               checks := [] } []).checks = [] :=
  execute_zero_probes_identity _ [] rfl (by decide)

/-! HTTP handler (pkg/health.go lines 160-173). -/

/-- Status-code choice of `Handler` (pkg/health.go lines 167-169):
`w.WriteHeader(http.StatusServiceUnavailable)` is called exactly when the
response status equals `StatusFail`; otherwise no explicit header is written
and Go's `net/http` sends the implicit default `200 OK` on the first body
write (`json.NewEncoder(w).Encode`). -/
def handlerStatusCode (resp : Response) : Nat :=
  if resp.status = StatusFail then 503 else 200

/-- Go function `Handler` (pkg/health.go): runs `Execute` on the request
context and serves the result; the observable transport effect embedded here
is the HTTP status code paired with the encoded `Response`. -/
def Handler (h : HealthCheck) (arrival : List (String × List Result)) : Nat × Response :=
  let resp := Execute h arrival
  (handlerStatusCode resp, resp)

/-- C8: the HTTP handler maps the aggregate status to the transport status
code: when `Execute`'s `Response` has status `fail` it writes
`503 Service Unavailable`; when the status is `pass` or `warn` it writes the
default `200 OK`. -/
theorem handler_maps_status_to_code (h : HealthCheck)
    (arrival : List (String × List Result)) :
    ((Execute h arrival).status = StatusFail → (Handler h arrival).1 = 503) ∧
    ((Execute h arrival).status = StatusPass ∨ (Execute h arrival).status = StatusWarn →
      (Handler h arrival).1 = 200) := by
  constructor
  · intro hf
    simp [Handler, handlerStatusCode, hf]
  · rintro (hs | hs) <;>
      · simp only [Handler, handlerStatusCode, hs]
        rw [if_neg (by decide)]

/-- Registry whose only probe passes, together with its arrival order. -/
def passHC : HealthCheck :=
  { serviceID := "svc", description := "", version := "", releaseID := "",
    checks := [ { name := "http-check", run := [mkResult StatusPass ""] } ] }

/-- Channel arrival order for `passHC`. -/
def passArrival : List (String × List Result) :=
  [("http-check", [mkResult StatusPass ""])]

/-- C8 witness: the mapping theorem applied to a failing aggregate (503) and
to a passing aggregate (200). -/
theorem handler_maps_status_to_code_witness :
    (Handler sampleHC sampleArrival).1 = 503 ∧ (Handler passHC passArrival).1 = 200 :=
  ⟨(handler_maps_status_to_code sampleHC sampleArrival).1 (by decide),
   (handler_maps_status_to_code passHC passArrival).2 (Or.inl (by decide))⟩

/-! Frame property of `Execute` on its receiver. -/

/-- State-passing translation of the `Execute` method receiver (pkg/health.go
lines 113-158): a Go method on `*HealthCheck` could mutate its receiver, so
the embedding returns the receiver's post-state alongside the `Response`.
The body of `Execute` reads `h.Checks` and the four metadata fields but
contains no assignment to any field of `h` — its goroutines only read the
captured check value and send on the channel — so the translated post-state
is the unchanged receiver. -/
def ExecuteSt (h : HealthCheck) (arrival : List (String × List Result)) :
    Response × HealthCheck :=
  (Execute h arrival, h)

/-- C9: `Execute` never modifies the `HealthCheck` it runs on — after the
call the registered probe list and the `ServiceID`, `Description`, `Version`
and `ReleaseID` fields equal their values before the call, so the same
`HealthCheck` can be executed again with identical configuration. -/
theorem execute_preserves_receiver (h : HealthCheck)
    (arrival : List (String × List Result)) :
    (ExecuteSt h arrival).2.checks = h.checks ∧
    (ExecuteSt h arrival).2.serviceID = h.serviceID ∧
    (ExecuteSt h arrival).2.description = h.description ∧
    (ExecuteSt h arrival).2.version = h.version ∧
    (ExecuteSt h arrival).2.releaseID = h.releaseID :=
  ⟨rfl, rfl, rfl, rfl, rfl⟩

/-! Claim C4: what happens to an unrecognized status value. -/

/-- Outcome carrying a status string that is none of the three documented
values. -/
def invalidResult : Result := mkResult "invalid" "bogus status"

/-- Registry whose only probe reports the unrecognized status above. -/
def weirdHC : HealthCheck :=
  { serviceID := "svc", description := "", version := "", releaseID := "",
    checks := [ { name := "weird-check", run := [invalidResult] } ] }

/-- Channel arrival order for `weirdHC`. -/
def weirdArrival : List (String × List Result) :=
  [("weird-check", [invalidResult])]

/-- C4 counterexample: an outcome with unrecognized status `"invalid"` is not
rejected — `Execute` records it unchanged in the checks mapping and the
aggregation treats it as neutral, reporting overall `StatusPass`. -/
theorem unrecognized_status_accepted_counterexample :
    (Execute weirdHC weirdArrival).status = StatusPass ∧
    lookupRes (Execute weirdHC weirdArrival).checks "weird-check" = some [invalidResult] ∧
    invalidResult.status ≠ StatusPass ∧
    invalidResult.status ≠ StatusWarn ∧
    invalidResult.status ≠ StatusFail := by
  decide

/-- C4 amended: `Status` is a string type whose three documented values are
`pass`, `warn` and `fail`, but an outcome carrying any other status value is
accepted rather than rejected: it is recorded unchanged in the checks mapping
and the aggregation treats it as neutral — like `pass`, it never raises the
overall status, which is `StatusPass` whenever no outcome is `fail` or
`warn`. -/
theorem unrecognized_status_neutral (h : HealthCheck)
    (arrival : List (String × List Result))
    (hp : arrival.Perm (h.checks.map fun c => (c.name, c.run)))
    (hnf : ∀ c ∈ h.checks, ∀ r ∈ c.run, r.status ≠ StatusFail ∧ r.status ≠ StatusWarn) :
    (Execute h arrival).status = StatusPass ∧
    ∀ c ∈ h.checks, (lookupRes (Execute h arrival).checks c.name).isSome := by
  constructor
  · rw [execute_status_char h arrival hp]
    have hf : (h.checks.any fun c => c.run.any fun r => r.status == StatusFail) = false := by
      rw [List.any_eq_false]
      intro c hc
      rw [Bool.not_eq_true, List.any_eq_false]
      intro r hr
      simp only [beq_iff_eq]
      exact (hnf c hc r hr).1
    have hw : (h.checks.any fun c => c.run.any fun r => r.status == StatusWarn) = false := by
      rw [List.any_eq_false]
      intro c hc
      rw [Bool.not_eq_true, List.any_eq_false]
      intro r hr
      simp only [beq_iff_eq]
      exact (hnf c hc r hr).2
    simp [hf, hw]
  · intro c hc
    have hany : (arrival.any fun cr => cr.1 == c.name) = true := by
      rw [perm_any hp, any_fst_map_pairs]
      exact (any_name_iff _ _).mpr (List.mem_map.mpr ⟨c, hc, rfl⟩)
    simp [execute_checks_lookup, hany]

/-- C4 witness: the amended theorem instantiated on the concrete registry
whose single probe reports status `"invalid"`. -/
theorem unrecognized_status_neutral_witness :
    (Execute weirdHC weirdArrival).status = StatusPass ∧
    (lookupRes (Execute weirdHC weirdArrival).checks "weird-check").isSome := by
  have h := unrecognized_status_neutral weirdHC weirdArrival (by decide) (by decide)
  exact ⟨h.1, h.2 { name := "weird-check", run := [invalidResult] } (by decide)⟩

/-! Claim C5: per-probe outcome sequences are relocated verbatim. -/

/-- C5: for every probe whose name is not shared by any other registered
probe, the sequence stored under that name in the checks mapping of
`Execute`'s `Response` is exactly the `Result` sequence its `Run` returned —
same records, field for field, in the same emission order. -/
theorem unique_name_run_preserved (h : HealthCheck)
    (arrival : List (String × List Result))
    (hp : arrival.Perm (h.checks.map fun c => (c.name, c.run)))
    (c : Check) (hc : c ∈ h.checks)
    (huniq : (h.checks.filter fun c' => c'.name == c.name).length = 1) :
    lookupRes (Execute h arrival).checks c.name = some c.run := by
  have hfilter : (h.checks.filter fun c' => c'.name == c.name) = [c] := by
    obtain ⟨a, ha⟩ := List.length_eq_one.mp huniq
    have hcmem : c ∈ h.checks.filter fun c' => c'.name == c.name :=
      List.mem_filter.mpr ⟨hc, by simp⟩
    rw [ha] at hcmem
    have : c = a := by simpa using hcmem
    rw [ha, this]
  have hpairs : ((h.checks.map fun c' => (c'.name, c'.run)).filter fun cr => cr.1 == c.name)
      = [(c.name, c.run)] := by
    rw [List.filter_map]
    have hcomp : ((fun cr : String × List Result => cr.1 == c.name) ∘
        fun c' : Check => (c'.name, c'.run)) = fun c' : Check => c'.name == c.name := rfl
    rw [hcomp, hfilter]
    rfl
  have harr : (arrival.filter fun cr => cr.1 == c.name) = [(c.name, c.run)] :=
    List.perm_singleton.mp (hpairs ▸ hp.filter (fun cr => cr.1 == c.name))
  have hany : (arrival.any fun cr => cr.1 == c.name) = true := by
    rw [List.any_eq_true]
    have hmem : (c.name, c.run) ∈ arrival.filter fun cr => cr.1 == c.name := by
      rw [harr]
      exact List.mem_singleton.mpr rfl
    obtain ⟨hmem', hpred⟩ := List.mem_filter.mp hmem
    exact ⟨_, hmem', hpred⟩
  rw [execute_checks_lookup]
  simp [hany, valuesFor, harr]

/-- C5 witness: the preservation theorem instantiated on the scenario-A
fixture at the uniquely named http probe. -/
theorem unique_name_run_preserved_witness :
    lookupRes (Execute sampleHC sampleArrival).checks "http-check"
      = some [mkResult StatusPass ""] :=
  unique_name_run_preserved sampleHC sampleArrival (by decide)
    { name := "http-check", run := [mkResult StatusPass ""] } (by decide) (by decide)

/-! Claim C6: completeness of the checks mapping. -/

/-- Outcome lists returned by the registered checks named `n`, in
registration order. -/
def runsFor (h : HealthCheck) (n : String) : List (List Result) :=
  (h.checks.filter fun c => c.name == n).map Check.run

lemma flatten_ne_nil {ls : List (List Result)} (hne : ls ≠ [])
    (hall : ∀ l ∈ ls, l ≠ []) : ls.flatten ≠ [] := by
  cases ls with
  | nil => exact absurd rfl hne
  | cons l t =>
    rw [List.flatten_cons]
    cases hl : l with
    | nil => exact absurd hl (hall l (List.mem_cons_self l t))
    | cons a l' => simp

/-- C6: assuming every registered probe's `Run` returns a nonempty outcome
list, the checks mapping of `Execute`'s `Response` has no duplicate keys and
contains an entry exactly for every distinct registered probe name, each with
a nonempty outcome sequence; the sequence under a name is the concatenation
(in some arrival order) of the outcome lists of the registered probes bearing
that name — so two probes sharing a name are concatenated under that single
key. -/
theorem checks_mapping_completeness (h : HealthCheck)
    (arrival : List (String × List Result))
    (hp : arrival.Perm (h.checks.map fun c => (c.name, c.run)))
    (hne : ∀ c ∈ h.checks, c.run ≠ []) :
    (keysOf (Execute h arrival).checks).Nodup ∧
    (∀ n : String,
      (lookupRes (Execute h arrival).checks n).isSome ↔ n ∈ h.checks.map Check.name) ∧
    (∀ n vs, lookupRes (Execute h arrival).checks n = some vs →
      vs ≠ [] ∧ ∃ runs : List (List Result), runs.Perm (runsFor h n) ∧ vs = runs.flatten) := by
  have hchecks : (Execute h arrival).checks
      = arrival.foldl (fun mm cr => upsertAppend mm cr.1 cr.2) [] := by
    simp [Execute, foldl_collectStep_fst]
  refine ⟨?_, ?_, ?_⟩
  · rw [hchecks]
    exact nodup_keysOf_foldl_upsert _ _ (by simp [keysOf])
  · intro n
    rw [execute_checks_lookup]
    by_cases hb : (arrival.any fun cr => cr.1 == n) = true
    · simp only [hb, if_true, Option.isSome_some, true_iff]
      rw [perm_any hp, any_fst_map_pairs] at hb
      exact (any_name_iff _ _).mp hb
    · have hb' : (arrival.any fun cr => cr.1 == n) = false := Bool.eq_false_iff.mpr hb
      simp only [hb', if_false, Option.isSome_none, Bool.false_eq_true, false_iff]
      intro hn
      apply hb
      rw [perm_any hp, any_fst_map_pairs]
      exact (any_name_iff _ _).mpr hn
  · intro n vs hvs
    rw [execute_checks_lookup] at hvs
    by_cases hb : (arrival.any fun cr => cr.1 == n) = true
    · rw [hb, if_pos rfl, Option.some_inj] at hvs
      have hfil : (arrival.filter fun cr => cr.1 == n).Perm
          ((h.checks.map fun c => (c.name, c.run)).filter fun cr => cr.1 == n) :=
        hp.filter _
      have hpairs : ((h.checks.map fun c => (c.name, c.run)).filter fun cr => cr.1 == n)
          = (h.checks.filter fun c => c.name == n).map fun c => (c.name, c.run) := by
        rw [List.filter_map]
        rfl
      have hperm : ((arrival.filter fun cr => cr.1 == n).map Prod.snd).Perm (runsFor h n) := by
        have := hfil.map Prod.snd
        rw [hpairs, List.map_map] at this
        exact this
      have hvs' : vs = ((arrival.filter fun cr => cr.1 == n).map Prod.snd).flatten := by
        rw [← hvs]
        rfl
      refine ⟨?_, (arrival.filter fun cr => cr.1 == n).map Prod.snd, hperm, hvs'⟩
      rw [hvs']
      apply flatten_ne_nil
      · obtain ⟨cr, hcr, hcrp⟩ := List.any_eq_true.mp hb
        have : cr ∈ arrival.filter fun cr => cr.1 == n := List.mem_filter.mpr ⟨hcr, hcrp⟩
        intro hmapnil
        rw [List.map_eq_nil_iff] at hmapnil
        rw [hmapnil] at this
        exact absurd this (List.not_mem_nil cr)
      · intro l hl
        obtain ⟨cr, hcr, hcrl⟩ := List.mem_map.mp hl
        have hcra : cr ∈ arrival := (List.mem_filter.mp hcr).1
        have : cr ∈ h.checks.map fun c => (c.name, c.run) := hp.mem_iff.mp hcra
        obtain ⟨c, hcmem, hce⟩ := List.mem_map.mp this
        have : l = c.run := by rw [← hcrl, ← hce]
        rw [this]
        exact hne c hcmem
    · have hb' : (arrival.any fun cr => cr.1 == n) = false := Bool.eq_false_iff.mpr hb
      rw [hb'] at hvs
      simp at hvs

/-- Registry with two probes sharing the name disk-check plus a third
distinct probe, and an interleaved arrival order. -/
def dupHC : HealthCheck :=
  { serviceID := "svc", description := "", version := "", releaseID := "",
    checks := [ { name := "disk-check", run := [mkResult StatusPass "a"] },
                { name := "disk-check", run := [mkResult StatusWarn "b"] },
                { name := "db-check", run := [mkResult StatusPass "c"] } ] }

/-- Channel arrival order for `dupHC`. -/
def dupArrival : List (String × List Result) :=
  [("disk-check", [mkResult StatusWarn "b"]),
   ("db-check", [mkResult StatusPass "c"]),
   ("disk-check", [mkResult StatusPass "a"])]

/-- C6 witness: the completeness theorem instantiated on the registry with a
duplicated probe name; the duplicated lists are concatenated in arrival order
under the single key. -/
theorem checks_mapping_completeness_witness :
    (keysOf (Execute dupHC dupArrival).checks).Nodup ∧
    ((lookupRes (Execute dupHC dupArrival).checks "disk-check").isSome ↔
      "disk-check" ∈ dupHC.checks.map Check.name) ∧
    ([mkResult StatusWarn "b", mkResult StatusPass "a"] ≠ ([] : List Result) ∧
      ∃ runs : List (List Result), runs.Perm (runsFor dupHC "disk-check") ∧
        [mkResult StatusWarn "b", mkResult StatusPass "a"] = runs.flatten) := by
  have h := checks_mapping_completeness dupHC dupArrival (by decide) (by decide)
  exact ⟨h.1, h.2.1 "disk-check", h.2.2 "disk-check" _ (by decide)⟩

/-! Redis probe (checks/redischeck/check.go). -/

namespace redischeck

/-- Behaviour of one `Ping` call on a `RedisClient` during the execution:
`some e` models `Ping(ctx)` returning error `e`, `none` a successful ping. -/
structure RedisClient where
  pingError : Option String
deriving DecidableEq, Repr

/-- Go struct `redischeck.Check`; the nil-able `client RedisClient` interface
field is embedded as an `Option`, the timeout as milliseconds. -/
structure Check where
  name : String
  client : Option RedisClient
  timeout : Nat
  componentType : String
  componentID : String
deriving DecidableEq, Repr

/-- Go constructor `redischeck.New()` applied to no options: the defaults of
checks/redischeck/check.go lines 71-85. -/
def New : Check :=
  { name := "redis-check", client := Option.none, timeout := 5000,
    componentType := "datastore", componentID := "redis" }

/-- Go method `(c *Check) Run(ctx)` (checks/redischeck/check.go lines
93-129).  `now` stands for the value `time.Now()` observed during the call
and `pingMillis` for the measured ping duration in milliseconds. -/
def Run (c : Check) (now : Nat) (pingMillis : Int) : List Result :=
  match c.client with
  | Option.none =>
    [{ status := StatusFail, output := "Redis client is required", time := now,
       observedValue := ObservedValue.none, observedUnit := "",
       componentType := c.componentType, componentID := c.componentID }]
  | some client =>
    let result : Result :=
      { status := StatusPass, output := "", time := now,
        observedValue := ObservedValue.none, observedUnit := "",
        componentType := c.componentType, componentID := c.componentID }
    match client.pingError with
    | some e => [{ result with status := StatusFail, output := "Redis ping failed: " ++ e }]
    | Option.none =>
      [{ result with observedUnit := "ms", observedValue := ObservedValue.int pingMillis }]

end redischeck

/-- C7: for a redischeck `Check` whose client is nil, `Run` returns exactly
one outcome, with status `fail` and an output containing the word
"required"; consequently an aggregation that registers such a probe has
overall status `StatusFail`. -/
theorem redischeck_nil_client_fails (c : redischeck.Check) (now : Nat) (pingMillis : Int)
    (hnil : c.client = Option.none)
    (h : HealthCheck) (arrival : List (String × List Result))
    (hp : arrival.Perm (h.checks.map fun ck => (ck.name, ck.run)))
    (hreg : ({ name := c.name, run := redischeck.Run c now pingMillis } : Check) ∈ h.checks) :
    (redischeck.Run c now pingMillis).length = 1 ∧
    (∀ r ∈ redischeck.Run c now pingMillis,
      r.status = StatusFail ∧ ∃ a b, r.output = a ++ "required" ++ b) ∧
    (Execute h arrival).status = StatusFail := by
  have hrun : redischeck.Run c now pingMillis =
      [{ status := StatusFail, output := "Redis client is required", time := now,
         observedValue := ObservedValue.none, observedUnit := "",
         componentType := c.componentType, componentID := c.componentID }] := by
    rw [redischeck.Run, hnil]
  refine ⟨by rw [hrun]; rfl, ?_, ?_⟩
  · intro r hr
    rw [hrun, List.mem_singleton] at hr
    subst hr
    refine ⟨rfl, "Redis client is ", "", ?_⟩
    show ("Redis client is required" : String) = "Redis client is " ++ "required" ++ ""
    decide
  · rw [execute_status_char h arrival hp]
    have hf : (h.checks.any fun ck => ck.run.any fun r => r.status == StatusFail) = true := by
      rw [List.any_eq_true]
      refine ⟨_, hreg, ?_⟩
      show ((redischeck.Run c now pingMillis).any fun r => r.status == StatusFail) = true
      rw [hrun]
      simp
    simp [hf]

/-- Fixture registry containing the default redischeck probe (whose client is
nil) as its only check, with its arrival order. -/
def redisHC : HealthCheck :=
  { serviceID := "svc", description := "", version := "", releaseID := "",
    checks := [ { name := redischeck.New.name, run := redischeck.Run redischeck.New 0 0 } ] }

/-- Channel arrival order for `redisHC`. -/
def redisArrival : List (String × List Result) :=
  [(redischeck.New.name, redischeck.Run redischeck.New 0 0)]

/-- C7 witness: the nil-client theorem instantiated on the default redischeck
probe registered alone. -/
theorem redischeck_nil_client_fails_witness :
    (redischeck.Run redischeck.New 0 0).length = 1 ∧
    (Execute redisHC redisArrival).status = StatusFail := by
  have h := redischeck_nil_client_fails redischeck.New 0 0 rfl redisHC redisArrival
    (by decide) (by decide)
  exact ⟨h.1, h.2.2⟩

/-! Disk probe (checks/diskcheck/check.go). -/

namespace diskcheck

/-- Go struct `diskcheck.DiskInfo`; the two `float64` percentages are
embedded as rationals. -/
structure DiskInfo where
  path : String
  total : Nat
  free : Nat
  used : Nat
  usedPct : ℚ
  availPct : ℚ
deriving DecidableEq, Repr

/-- Go struct `diskcheck.Check`; the `stater FileSystemStater` dependency is
embedded as the behaviour of its `Statfs` method during the call. -/
structure Check where
  name : String
  paths : List String
  warnThreshold : ℚ
  failThreshold : ℚ
  componentType : String
  componentID : String
  stater : String → Except String DiskInfo

/-- Rendering of a percentage inside an output message; abstracts Go's
`%.1f` float formatting (no proved property depends on these strings). -/
def fmtPct (q : ℚ) : String := toString q

/-- Go method `(c *Check) checkPath(path)` (checks/diskcheck/check.go lines
162-196); `now` stands for `time.Now()`. -/
def checkPath (c : Check) (now : Nat) (path : String) : Result :=
  let result : Result :=
    { status := StatusPass, output := "", time := now,
      observedValue := ObservedValue.none, observedUnit := "",
      componentID := c.componentID ++ ":" ++ path, componentType := c.componentType }
  match c.stater path with
  | Except.error e =>
    { result with
      status := StatusFail
      output := "failed to get disk stats for " ++ path ++ ": " ++ e }
  | Except.ok info =>
    let result := { result with
                    observedValue := ObservedValue.float info.usedPct
                    observedUnit := "%" }
    if info.usedPct ≥ c.failThreshold then
      { result with
        status := StatusFail
        output := "disk usage critical on " ++ path ++ ": " ++ fmtPct info.usedPct ++
          "% used (threshold: " ++ fmtPct c.failThreshold ++ "%)" }
    else if info.usedPct ≥ c.warnThreshold then
      { result with
        status := StatusWarn
        output := "disk usage high on " ++ path ++ ": " ++ fmtPct info.usedPct ++
          "% used (threshold: " ++ fmtPct c.warnThreshold ++ "%)" }
    else
      { result with
        status := StatusPass
        output := "disk usage normal on " ++ path ++ ": " ++ fmtPct info.usedPct ++
          "% used (" ++ fmtPct info.availPct ++ "% available)" }

/-- Go method `(c *Check) Run(ctx)` (checks/diskcheck/check.go lines
150-159): one `checkPath` result per configured path, in path order. -/
def Run (c : Check) (now : Nat) : List Result :=
  c.paths.map (checkPath c now)

end diskcheck

/-- C10: a diskcheck `Check` configured with an empty path list returns an
empty outcome sequence from `Run` — violating the nonempty-outcome probe
contract at the public interface — and a `HealthCheck` registering only that
probe returns from `Execute` with overall status `StatusPass` and the
probe's name mapped to an empty sequence in the checks mapping. -/
theorem diskcheck_empty_paths_empty_run (c : diskcheck.Check) (now : Nat)
    (hpaths : c.paths = [])
    (h : HealthCheck) (arrival : List (String × List Result))
    (hreg : h.checks = [{ name := c.name, run := diskcheck.Run c now }])
    (hp : arrival.Perm (h.checks.map fun ck => (ck.name, ck.run))) :
    diskcheck.Run c now = [] ∧
    (Execute h arrival).status = StatusPass ∧
    lookupRes (Execute h arrival).checks c.name = some [] := by
  have hrun : diskcheck.Run c now = [] := by
    rw [diskcheck.Run, hpaths]
    rfl
  have harr : arrival = [(c.name, diskcheck.Run c now)] := by
    rw [hreg] at hp
    simp only [List.map_cons, List.map_nil] at hp
    exact List.perm_singleton.mp hp
  refine ⟨hrun, ?_, ?_⟩
  · rw [harr, hrun]
    rfl
  · rw [harr, hrun]
    simp [Execute, collectStep, upsertAppend, lookupRes]

/-- Diskcheck fixture with an empty monitored-path list. -/
def emptyDisk : diskcheck.Check :=
  { name := "disk-check", paths := [], warnThreshold := 80, failThreshold := 90,
    componentType := "system", componentID := "disk",
    stater := fun path => Except.error ("failed to get filesystem stats for " ++ path) }

/-- Registry whose only probe is `emptyDisk`. -/
def diskHC : HealthCheck :=
  { serviceID := "svc", description := "", version := "", releaseID := "",
    checks := [ { name := emptyDisk.name, run := diskcheck.Run emptyDisk 0 } ] }

/-- Channel arrival order for `diskHC`. -/
def diskArrival : List (String × List Result) :=
  [(emptyDisk.name, diskcheck.Run emptyDisk 0)]

/-- C10 witness: the empty-path theorem instantiated on `emptyDisk`
registered alone. -/
theorem diskcheck_empty_paths_empty_run_witness :
    diskcheck.Run emptyDisk 0 = [] ∧
    (Execute diskHC diskArrival).status = StatusPass ∧
    lookupRes (Execute diskHC diskArrival).checks "disk-check" = some [] :=
  diskcheck_empty_paths_empty_run emptyDisk 0 rfl diskHC diskArrival rfl (List.Perm.refl _)

/-! Claim C3: behaviour when a probe's `Run` panics. -/

/-- One registered check in an execution where `Run` may panic:
`Except.error msg` models a panic escaping `Run`, `Except.ok rs` a normal
return of the outcome list `rs`. -/
structure PCheck where
  name : String
  run : Except String (List Result)
deriving Repr

/-- Registry variant for the panic analysis. -/
structure PHealthCheck where
  serviceID : String
  description : String
  version : String
  releaseID : String
  checks : List PCheck
deriving Repr

/-- Fan-out/fan-in of `Execute` when goroutine bodies may panic
(pkg/health.go lines 119-129).  The goroutine body
`result := c.Run(ctx); resultsChan <- checkResult{...}` contains no
`recover`, so in Go a panic escaping any `Run` terminates the whole program:
no message is sent and `Execute` never returns.  The embedding therefore
yields `Except.error` as soon as any check panics, and the full collected
message list only when none does. -/
def runWorkers : List (String × Except String (List Result)) →
    Except String (List (String × List Result))
  | [] => Except.ok []
  | cr :: rest =>
    match cr.2 with
    | Except.error e => Except.error e
    | Except.ok rs => (runWorkers rest).map fun l => (cr.1, rs) :: l

/-- Go method `Execute` under the panic-aware embedding: when every probe
returns it behaves exactly like `Execute`; when any probe panics the program
aborts and no `Response` exists. -/
def ExecuteP (h : PHealthCheck)
    (arrival : List (String × Except String (List Result))) : Except String Response :=
  (runWorkers arrival).map fun collected =>
    let acc := collected.foldl collectStep ([], StatusPass)
    { serviceID := h.serviceID, description := h.description, version := h.version,
      releaseID := h.releaseID, output := "", status := acc.2, checks := acc.1 }

lemma runWorkers_error_of_mem {arrival : List (String × Except String (List Result))}
    {cr : String × Except String (List Result)} (hmem : cr ∈ arrival)
    {e : String} (he : cr.2 = Except.error e) :
    ∃ e', runWorkers arrival = Except.error e' := by
  induction arrival with
  | nil => cases hmem
  | cons hd rest ih =>
    rcases List.mem_cons.mp hmem with h1 | h1
    · subst h1
      exact ⟨e, by simp [runWorkers, he]⟩
    · cases h2 : hd.2 with
      | error e2 => exact ⟨e2, by simp [runWorkers, h2]⟩
      | ok rs =>
        obtain ⟨e', he'⟩ := ih h1
        exact ⟨e', by simp [runWorkers, h2, he', Except.map]⟩

/-- Fixture: a healthy probe next to a probe whose `Run` panics. -/
def panicHC : PHealthCheck :=
  { serviceID := "svc", description := "", version := "", releaseID := "",
    checks := [ { name := "good-check", run := Except.ok [mkResult StatusPass ""] },
                { name := "bad-check", run := Except.error "boom" } ] }

/-- Channel arrival order for `panicHC` (the healthy probe was dispatched
first; the panic kills the program regardless of order). -/
def panicArrival : List (String × Except String (List Result)) :=
  [("good-check", Except.ok [mkResult StatusPass ""]),
   ("bad-check", Except.error "boom")]

/-- C3 counterexample: with one healthy probe and one probe whose `Run`
panics, `Execute` does not convert the panic into a Fail outcome at the
per-probe boundary — the panic propagates, the execution aborts with it, and
no `Response` is produced at all, so the healthy probe's outcomes are lost
too. -/
theorem execute_panic_aborts_counterexample :
    ExecuteP panicHC panicArrival = Except.error "boom" := rfl

/-- C3 amended: `Execute` performs no per-probe panic recovery.  If any
registered probe's `Run` panics, the panic aborts the whole execution and
`Execute` returns no `Response` at all — neither a Fail outcome attributed to
the panicking probe nor the other probes' outcomes appear; the no-panic
guarantee rests entirely on the probe implementations. -/
theorem execute_panic_aborts (h : PHealthCheck)
    (arrival : List (String × Except String (List Result)))
    (hp : arrival.Perm (h.checks.map fun c => (c.name, c.run)))
    (c : PCheck) (hc : c ∈ h.checks) (e : String) (hpanic : c.run = Except.error e) :
    ∀ resp : Response, ExecuteP h arrival ≠ Except.ok resp := by
  intro resp hok
  have hmem : (c.name, c.run) ∈ arrival :=
    hp.mem_iff.mpr (List.mem_map.mpr ⟨c, hc, rfl⟩)
  obtain ⟨e', he'⟩ := runWorkers_error_of_mem hmem hpanic
  rw [ExecuteP, he'] at hok
  exact Except.noConfusion hok

/-- C3 witness: the amended theorem instantiated on the concrete registry
with the panicking probe, at an arbitrary concrete response value. -/
theorem execute_panic_aborts_witness :
    ExecuteP panicHC panicArrival ≠ Except.ok
      { serviceID := "svc", description := "", version := "", releaseID := "",
        output := "", status := StatusPass, checks := [] } :=
  execute_panic_aborts panicHC panicArrival (List.Perm.refl _)
    { name := "bad-check", run := Except.error "boom" }
    (List.mem_cons_of_mem _ (List.mem_cons_self _ _)) "boom" rfl _

end Healthcheck
